import Mathlib

/-!
Shallow embedding of the quality-control core of the `seal` spike-sorting
toolkit: `seal/quality/test_sorting.py` together with the parts of
`seal/object/unit.py` that it reads and mutates.  Numeric values are
modelled exactly over `ℚ`; IEEE float special values (NaN, ±inf) are
modelled by the `FVal` type, whose comparisons reject NaN exactly as
numpy float comparisons do.  Spike times and inter-spike intervals are
in milliseconds, matching the unit the Python code rescales to before
comparing against its thresholds.
-/

/-- IEEE-style float value: an exact rational, NaN, or a signed infinity. -/
inductive FVal
  | num (q : ℚ)
  | nan
  | inf
  | ninf
  deriving DecidableEq, Repr

/-- Strict `>` on float values: NaN compares false against everything. -/
def fgt : FVal → FVal → Bool
  | .nan, _ => false
  | _, .nan => false
  | .num a, .num b => decide (b < a)
  | .num _, .inf => false
  | .num _, .ninf => true
  | .inf, .num _ => true
  | .inf, .inf => false
  | .inf, .ninf => true
  | .ninf, _ => false

/-- Strict `<` on float values. -/
def flt (a b : FVal) : Bool := fgt b a

/-- `≥` on float values: NaN compares false against everything. -/
def fge : FVal → FVal → Bool
  | .nan, _ => false
  | _, .nan => false
  | .num a, .num b => decide (b ≤ a)
  | .num _, .inf => false
  | .num _, .ninf => true
  | .inf, _ => true
  | .ninf, .ninf => true
  | .ninf, _ => false

/-- Multiplication on float values (numpy semantics: NaN propagates,
`0 * ±inf = NaN`). -/
def fmul : FVal → FVal → FVal
  | .nan, _ => .nan
  | _, .nan => .nan
  | .num a, .num b => .num (a * b)
  | .num a, .inf => if 0 < a then .inf else if a < 0 then .ninf else .nan
  | .num a, .ninf => if 0 < a then .ninf else if a < 0 then .inf else .nan
  | .inf, .num b => if 0 < b then .inf else if b < 0 then .ninf else .nan
  | .ninf, .num b => if 0 < b then .ninf else if b < 0 then .inf else .nan
  | .inf, .inf => .inf
  | .inf, .ninf => .ninf
  | .ninf, .inf => .ninf
  | .ninf, .ninf => .inf

/-- Division on float values (numpy semantics: `0/0 = NaN`,
`x/0 = ±inf` for `x ≠ 0`, NaN propagates). -/
def fdiv : FVal → FVal → FVal
  | .nan, _ => .nan
  | _, .nan => .nan
  | .num a, .num b =>
      if b = 0 then (if 0 < a then .inf else if a < 0 then .ninf else .nan)
      else .num (a / b)
  | .num _, .inf => .num 0
  | .num _, .ninf => .num 0
  | .inf, .num b => if 0 ≤ b then .inf else .ninf
  | .ninf, .num b => if 0 ≤ b then .ninf else .inf
  | .inf, .inf => .nan
  | .inf, .ninf => .nan
  | .ninf, .inf => .nan
  | .ninf, .ninf => .nan

/- %% Constants of `test_sorting.py` (`# %% Constants.` block). -/

/-- ISI violation threshold, in ms (`ISI_TH = 1.0*ms`). -/
def ISI_TH : ℚ := 1

/-- Length of the censored period, in ms (`CENSORED_PRD_LEN = 0.675*ms`). -/
def CENSORED_PRD_LEN : ℚ := 675 / 1000

/-- Maximum tolerable drift percentage (`MAX_DRIFT_PCT = 200`). -/
def MAX_DRIFT_PCT : ℚ := 200

/-- Minimum SNR for unit inclusion (`min_SNR = 1.0`). -/
def min_SNR : ℚ := 1

/-- Minimum firing rate, sp/s (`min_FR = 1.0`). -/
def min_FR : ℚ := 1

/-- Maximum ISI violation ratio, % (`max_ISIvr = 1.0`). -/
def max_ISIvr : ℚ := 1

/-- Minimum number of trials (`min_n_trs = 20`). -/
def min_n_trs : ℚ := 20

/-- Minimum ratio of included trials, % (`min_inc_trs_ratio = 50`). -/
def min_inc_trs_ratio : ℚ := 50

/-- The five quality metrics read by `test_rejection` from
`u.QualityMetrics`; each may be NaN. -/
structure QualityMetrics where
  SNR : FVal
  mFR : FVal
  ISIvr : FVal
  NTrialsTotal : FVal
  NTrialsInc : FVal
  deriving DecidableEq, Repr

/-- Embedding of `test_rejection` (test_sorting.py lines 394-425): the unit
is included iff every criterion in the `test_passed` series is `True`.
`inc_trs_ratio` is `100 * qm['NTrialsInc'] / qm['NTrialsTotal']` computed
in float arithmetic. -/
def test_rejection (qm : QualityMetrics) : Bool :=
  let pSNR := fgt qm.SNR (.num min_SNR)
  let pFR := fgt qm.mFR (.num min_FR)
  let pISI := flt qm.ISIvr (.num max_ISIvr)
  let pNTot := fgt qm.NTrialsTotal (.num min_n_trs)
  let inc_trs_ratio := fdiv (fmul (.num 100) qm.NTrialsInc) qm.NTrialsTotal
  let pRatio := fgt inc_trs_ratio (.num min_inc_trs_ratio)
  pSNR && pFR && pISI && pNTot && pRatio

/-- Embedding of `classify_unit` (test_sorting.py lines 176-184):
`'single unit'` iff `true_spikes >= 90 and snr >= 2.0` in float
comparison semantics. -/
def classify_unit (snr true_spikes : FVal) : String :=
  if fge true_spikes (.num 90) && fge snr (.num 2) then "single unit"
  else "multi unit"

/- %% ISI statistics. -/

/-- Consecutive differences of a list; embeds `elephant.statistics.isi`,
which is `np.diff` on the spike-time array. -/
def diffs : List ℚ → List ℚ
  | [] => []
  | [_] => []
  | a :: b :: t => (b - a) :: diffs (b :: t)

/-- Maximum of a list (`np.max` / `.max()`), with the head as base case. -/
def listMax (xs : List ℚ) : ℚ := xs.foldl max (xs.headD 0)

/-- Minimum of a list (`np.min` / `.min()`), with the head as base case. -/
def listMin (xs : List ℚ) : ℚ := xs.foldl min (xs.headD 0)

/-- The true-spikes component of `isi_stats`: either NaN, an exact
rational (the single-spike branch returns the int `100`), or the value
`100*(1/2 + sqrt det)` represented by its radicand, since exact real
square roots are not computable. `TSVal.toReal` interprets it. -/
inductive TSVal
  | nan
  | num (q : ℚ)
  | sqrtForm (det : ℚ)
  deriving DecidableEq, Repr

/-- Interpretation of `TSVal` as an optional real (`none` = NaN). -/
noncomputable def TSVal.toReal : TSVal → Option ℝ
  | .nan => none
  | .num q => some (q : ℝ)
  | .sqrtForm d => some (100 * (1 / 2 + Real.sqrt (d : ℝ)))

/-- Embedding of `isi_stats` (test_sorting.py lines 123-154).  Spike times
are in ms.  Returns `(true_spikes, percent_ISI_vr)`:
no spike -> `(NaN, NaN)`; one spike -> `(100, 0)`; otherwise the ISI
violation percentage and the Hill et al. (2011) true-spike estimate with
`det = 1/4 - r*T/(2*tdif*N^2)`, NaN when `det < 0`. -/
def isi_stats (spk_times : List ℚ) : TSVal × FVal :=
  match spk_times with
  | [] => (TSVal.nan, FVal.nan)
  | [_] => (TSVal.num 100, FVal.num 0)
  | a :: b :: rest =>
    let spk := a :: b :: rest
    let isi := diffs spk
    let n_ISI_vr : ℕ := (isi.filter (fun x => decide (x < ISI_TH))).length
    let percent_ISI_vr : ℚ := 100 * (n_ISI_vr : ℚ) / (isi.length : ℚ)
    let N : ℚ := (spk.length : ℚ)
    let T : ℚ := listMax spk - listMin spk
    let r : ℚ := (n_ISI_vr : ℚ)
    let tdif : ℚ := ISI_TH - CENSORED_PRD_LEN
    let det : ℚ := 1 / 4 - r * T / (2 * tdif * N ^ 2)
    (if 0 ≤ det then TSVal.sqrtForm det else TSVal.nan, FVal.num percent_ISI_vr)

/-- The determinant of the true-spike formula as the spec states it:
`det = 1/4 - r*T/(2*(t_max - t_min)*N^2)` with `t_max = 1` ms and
`t_min = 0.675` ms, `r` the number of inter-spike intervals below 1 ms,
`T` the spike-time span and `N` the spike count. -/
def isi_det_spec (spk : List ℚ) : ℚ :=
  let r : ℚ := (((diffs spk).filter (fun x => decide (x < 1))).length : ℚ)
  let T : ℚ := listMax spk - listMin spk
  let N : ℚ := (spk.length : ℚ)
  1 / 4 - r * T / (2 * (1 - 675 / 1000) * N ^ 2)

/- %% SNR. -/

/-- Arithmetic mean of a list of rationals (0 for the empty list, which
never occurs under the guards of the callers). -/
def listMean (xs : List ℚ) : ℚ := xs.sum / (xs.length : ℚ)

/-- Column means of a waveform matrix (`waveforms.mean()` on the pandas
DataFrame: one mean per sample column, over the spike rows). -/
def colMeans (wfs : List (List ℚ)) : List ℚ :=
  (List.range (wfs.headD []).length).map
    (fun j => listMean (wfs.map (fun row => row.getD j 0)))

/-- Sample variance (`pandas .std()**2`, `ddof=1`): `none` (NaN) for
fewer than two values. -/
def sampleVar (xs : List ℚ) : Option ℚ :=
  if xs.length < 2 then none
  else some ((xs.map (fun x => (x - listMean xs) ^ 2)).sum / ((xs.length : ℚ) - 1))

/-- Population variance (`np.std()**2`, `ddof=0`, over the flattened
array): `none` (NaN) for the empty array. -/
def popVar (xs : List ℚ) : Option ℚ :=
  if xs.length = 0 then none
  else some ((xs.map (fun x => (x - listMean xs) ^ 2)).sum / (xs.length : ℚ))

/-- The flattened residual matrix `waveforms - wf_mean` of `calc_snr`:
each row minus the column-mean waveform, flattened as `np.array(wf_res)`. -/
def wfResidualFlat (wfs : List (List ℚ)) : List ℚ :=
  (wfs.map (fun row =>
    (List.range (wfs.headD []).length).map
      (fun j => row.getD j 0 - (colMeans wfs).getD j 0))).flatten

/-- Value of `calc_snr`: NaN, +inf (positive numerator over zero residual
std), or a finite value represented by the squared ratio
`var(mean wf, ddof=1) / var(residual, ddof=0)`, since the float result
`std/std` is the exact square root of this rational. `SNRVal.toRVal`
interprets it. -/
inductive SNRVal
  | nan
  | inf
  | val (q : ℚ)
  deriving DecidableEq, Repr

/-- Real interpretation of float-like results. -/
inductive RVal
  | nan
  | inf
  | fin (r : ℝ)

/-- Interpretation of `SNRVal`: a `val q` denotes the ratio of standard
deviations `Real.sqrt q`. -/
noncomputable def SNRVal.toRVal : SNRVal → RVal
  | .nan => .nan
  | .inf => .inf
  | .val q => .fin (Real.sqrt (q : ℝ))

/-- Embedding of `calc_snr` (test_sorting.py lines 157-173): fewer than two
spikes -> NaN; otherwise `wf_mean.std() / np.array(wf_res).std()`, where a
zero residual std yields +inf (positive numerator) or NaN (zero
numerator, float `0.0/0.0`), and a NaN numerator (fewer than two sample
columns) propagates. -/
def calc_snr (wfs : List (List ℚ)) : SNRVal :=
  if wfs.length < 2 then .nan
  else
    match sampleVar (colMeans wfs), popVar (wfResidualFlat wfs) with
    | none, _ => .nan
    | some _, none => .nan
    | some v1, some v0 =>
      if v0 = 0 then (if v1 = 0 then .nan else .inf)
      else .val (v1 / v0)

/- %% Waveform truncation flag. -/

/-- Embedding of the truncation test of `calc_waveform_stats`
(test_sorting.py lines 81-86): with `minV`/`maxV` the global extrema of
the waveform matrix, `is_truncated = np.sum(wfs == minV) > 1 or
np.sum(wfs == maxV) > 1` — it counts matrix entries (samples), over all
spikes.  The per-spike spline fitting of the rest of the function is not
needed by any claim and is not modelled. -/
def calc_waveform_trunc (wfs : List (List ℚ)) : Bool :=
  let flat := wfs.flatten
  let minV := listMin flat
  let maxV := listMax flat
  decide (1 < (flat.filter (fun x => decide (x = minV))).length) ||
  decide (1 < (flat.filter (fun x => decide (x = maxV))).length)

/-- The truncation flag as the claim states it: more than one *spike*
(row) reaches the observed global minimum voltage, or more than one
spike reaches the observed global maximum voltage. -/
def truncated_by_spikes (wfs : List (List ℚ)) : Bool :=
  let flat := wfs.flatten
  let minV := listMin flat
  let maxV := listMax flat
  decide (1 < (wfs.filter (fun row => row.contains minV)).length) ||
  decide (1 < (wfs.filter (fun row => row.contains maxV)).length)

/- %% Drift test. -/

/-- `np.sum(arr < t)`: number of elements strictly below `t`. -/
def countLt (xs : List ℚ) (t : ℚ) : ℕ := xs.countP (fun x => decide (x < t))

/-- Python list indexing with negative-index wraparound (`xs[i]` with
`xs[-1]` the last element); the default is unreachable in the uses below. -/
def pyGet {α : Type} (xs : List α) (i : ℤ) (d : α) : α :=
  if 0 ≤ i then xs.getD i.toNat d else xs.getD (xs.length - (-i).toNat) d

/-- The inner loop of `test_drift` (test_sorting.py lines 202-210), phrased
as the number of loop iterations that pass the drift check: starting from
envelope `(vmin, vmax)`, consume bins one by one, update the envelope, and
stop at the first bin where `vmax > MAX_DRIFT_PCT/100*v2` or
`v2 > MAX_DRIFT_PCT/100*vmin`.  The Python loop variable `j` ends at this
count minus one (the `j -= 1; break`). -/
def okCountFrom : ℚ → ℚ → List ℚ → ℕ
  | _, _, [] => 0
  | vmin, vmax, v2 :: rest =>
    let vmin' := min vmin v2
    let vmax' := max vmax v2
    if MAX_DRIFT_PCT / 100 * v2 < vmax' ∨ MAX_DRIFT_PCT / 100 * vmin' < v2 then 0
    else 1 + okCountFrom vmin' vmax' rest

/-- Number of bins in the drift-free period starting at bin `i`
(`n_prd = j + 1` of `test_drift`): the envelope starts at `(v1, v1)` with
`v1 = v[i]` and the scan runs over `v[i:]`. -/
def winLen (v : List ℚ) (i : ℕ) : ℕ :=
  okCountFrom (v.getD i 0) (v.getD i 0) (v.drop i)

/-- `prd_end_i` of `test_drift`: `end_i = i + j` with `j = winLen - 1`
(an integer, since `j` is `-1` when even the starting bin fails). -/
def prd_end_i (v : List ℚ) (i : ℕ) : ℤ := (i : ℤ) + ((winLen v i : ℤ) - 1)

/-- `n_tr_prd_start` of `test_drift`: for each bin, the number of trial
starts before the bin's left edge. -/
def n_tr_prd_start (tbins : List (ℚ × ℚ)) (tr_starts : List ℚ) : List ℕ :=
  tbins.map (fun b => countLt tr_starts b.1)

/-- `n_tr_prd_end` of `test_drift`: for each bin, the number of trial
starts before the bin's right edge. -/
def n_tr_prd_end (tbins : List (ℚ × ℚ)) (tr_starts : List ℚ) : List ℕ :=
  tbins.map (fun b => countLt tr_starts b.2)

/-- The `n_tr` column of `prd_res` in `test_drift`:
`n_tr[i] = n_tr_prd_end[end_i] - n_tr_prd_start[i]`. -/
def n_tr (v : List ℚ) (tbins : List (ℚ × ℚ)) (tr_starts : List ℚ) : List ℤ :=
  (List.range v.length).map
    (fun i => pyGet ((n_tr_prd_end tbins tr_starts).map (Int.ofNat)) (prd_end_i v i) 0
      - ((n_tr_prd_start tbins tr_starts).getD i 0 : ℤ))

/-- Index of the first occurrence of the maximum of a list; embeds
`pandas.Series.argmax`, which returns the position of the first maximal
value. -/
def firstMaxIdx : List ℤ → ℕ
  | [] => 0
  | [_] => 0
  | x :: y :: t =>
    let r := firstMaxIdx (y :: t)
    if x < (y :: t).getD r 0 then r + 1 else 0

/-- The winning start bin of `test_drift`: `idx = prd_res.n_tr.argmax()`,
the first index maximising the covered trial count. -/
def drift_idx (v : List ℚ) (tbins : List (ℚ × ℚ)) (tr_starts : List ℚ) : ℕ :=
  firstMaxIdx (n_tr v tbins tr_starts)

/-- `first_tr = prd_res.tr_start_i[idx]` of `test_drift`: the number of
trial starts before the selected window's start boundary. -/
def drift_first_tr (v : List ℚ) (tbins : List (ℚ × ℚ)) (tr_starts : List ℚ) : ℕ :=
  (n_tr_prd_start tbins tr_starts).getD (drift_idx v tbins tr_starts) 0

/-- `last_tr = prd_res.tr_end_i[idx]` of `test_drift`: the number of
trial starts before the selected window's end boundary. -/
def drift_last_tr (v : List ℚ) (tbins : List (ℚ × ℚ)) (tr_starts : List ℚ) : ℤ :=
  pyGet ((n_tr_prd_end tbins tr_starts).map (Int.ofNat))
    (prd_end_i v (drift_idx v tbins tr_starts)) 0

/-- Modelled from the spec: `util.indices_in_window` (module
`seal/util/util.py`) is not under src/.  Per the spec, membership in the
half-open window `[vmin, vmax)` (\"spikes are included iff their timestamp
falls within `[t1_inc, t2_inc)`\"). -/
def indices_in_window (x vmin vmax : ℚ) : Bool := decide (vmin ≤ x ∧ x < vmax)

/-- The five results of `test_drift`: absolute time bounds of the selected
window, included-bin mask, included-trial mask and included-spike mask. -/
structure DriftResult where
  t1_inc : ℚ
  t2_inc : ℚ
  prd_inc : List Bool
  tr_inc : List Bool
  spk_inc : List Bool
  deriving DecidableEq, Repr

/-- Embedding of `test_drift` (test_sorting.py lines 187-239).  The unused
first parameter `t` (bin midpoints) of the Python signature is dropped.
The winning start index is the first argmax of the `n_tr` column; the
returned bounds are `tbins[prd1][0]` and `tbins[prd2][1]`, and the masks
are built exactly as in the source (bin indices and spike times through
`util.indices_in_window`, trials through the index-range comparison). -/
def test_drift (v : List ℚ) (tbins : List (ℚ × ℚ))
    (tr_starts spk_times : List ℚ) : DriftResult :=
  let idx := drift_idx v tbins tr_starts
  let prd1 : ℤ := (idx : ℤ)
  let prd2 : ℤ := prd_end_i v idx
  let t1_inc := (pyGet tbins prd1 (0, 0)).1
  let t2_inc := (pyGet tbins prd2 (0, 0)).2
  let first_tr : ℕ := drift_first_tr v tbins tr_starts
  let last_tr : ℤ := drift_last_tr v tbins tr_starts
  { t1_inc := t1_inc
    t2_inc := t2_inc
    prd_inc := (List.range tbins.length).map
      (fun (k : ℕ) => indices_in_window (k : ℚ) (prd1 : ℚ) (prd2 : ℚ))
    tr_inc := (List.range tr_starts.length).map
      (fun (k : ℕ) => decide ((first_tr : ℤ) ≤ (k : ℤ) ∧ (k : ℤ) < last_tr))
    spk_inc := spk_times.map (fun s => indices_in_window s t1_inc t2_inc) }

/- Claim-side reformulations for the drift search. -/

/-- Running maximum of the rates over bins `i..i+k` (the `vmax` envelope
of the drift scan at step `k`, phrased over the suffix `w = v.drop i`). -/
def envMax (w : List ℚ) (k : ℕ) : ℚ := (w.take (k + 1)).foldl max (w.headD 0)

/-- Running minimum of the rates over bins `i..i+k`. -/
def envMin (w : List ℚ) (k : ℕ) : ℚ := (w.take (k + 1)).foldl min (w.headD 0)

/-- The drift check at step `k` of the window starting the suffix `w`:
the running max does not exceed twice the current rate and the current
rate does not exceed twice the running min. -/
def stepOK (w : List ℚ) (k : ℕ) : Prop :=
  envMax w k ≤ 2 * w.getD k 0 ∧ w.getD k 0 ≤ 2 * envMin w k

instance (w : List ℚ) (k : ℕ) : Decidable (stepOK w k) := by
  unfold stepOK; infer_instance

/-- Trial coverage of the window starting at bin `k`, as the claim states
it: trial starts before the window's end boundary minus trial starts
before its start boundary. -/
def trialsCovered (v : List ℚ) (tbins : List (ℚ × ℚ)) (tr_starts : List ℚ)
    (k : ℕ) : ℤ :=
  (countLt tr_starts (tbins.getD (k + (winLen v k - 1)) (0, 0)).2 : ℤ)
    - (countLt tr_starts (tbins.getD k (0, 0)).1 : ℤ)

/-- Well-formed session time bins: each bin's start is at most its stop,
and consecutive bins are contiguous (as produced by `time_bin_data`
via `linspace`). -/
def binsOrdered : List (ℚ × ℚ) → Bool
  | [] => true
  | [b] => decide (b.1 ≤ b.2)
  | a :: b :: t => decide (a.1 ≤ a.2) && decide (a.2 = b.1) && binsOrdered (b :: t)

/- %% Unit state and the `test_qm` entry guard. -/

/-- The slice of a `Unit` object's mutable state that `test_qm` touches
through `u.update_included_trials` and `u.set_excluded`:
the `UnitParams['empty']` flag, the trial count (`len(u.TrialParams.index)`),
the `TrialParams['included']` column, the `QualityMetrics` trial counters,
and the `UnitParams['excluded']` flag.  Quality-metric fields are `Option`s:
`none` means never assigned. -/
structure UnitState where
  empty : Bool
  nTrials : ℕ
  trialsIncluded : Option (List Bool)
  qmNTrialsTotal : Option ℕ
  qmNTrialsInc : Option ℕ
  excluded : Bool
  deriving DecidableEq, Repr

/-- Embedding of `Unit.is_empty` (unit.py lines 209-213): returns the
stored `UnitParams['empty']` flag — and nothing else; in particular it
does not inspect the trial count. -/
def is_empty (u : UnitState) : Bool := u.empty

/-- Embedding of `Unit.update_included_trials` (unit.py lines 308-321)
restricted to the state above: stores the included-trial mask and writes
`NTrialsTotal = len(TrialParams.index)` and `NTrialsInc = sum(tr_inc)`
into `QualityMetrics`. -/
def update_included_trials (u : UnitState) (tr_inc : List Bool) : UnitState :=
  { u with
    trialsIncluded := some tr_inc
    qmNTrialsTotal := some u.nTrials
    qmNTrialsInc := some (tr_inc.countP id) }

/-- Embedding of `Unit.set_excluded` (unit.py lines 227-230). -/
def set_excluded (u : UnitState) (to_excl : Bool) : UnitState :=
  { u with excluded := to_excl }

/-- Control-flow model of `test_qm` (test_sorting.py lines 313-391) with
respect to unit mutation: the guard is `if u.is_empty(): return` — the
*only* short-circuit — and every non-empty unit then reaches
`u.update_included_trials(tr_inc)` and `u.set_excluded(not include)`.
The computed mask and inclusion decision are passed as parameters here,
since their values (waveform splines, task-relatedness test) involve
scipy machinery outside this embedding; only which fields are written,
and with which trial counters, is modelled. -/
def test_qm_state (u : UnitState) (tr_inc : List Bool) (inc : Bool) : UnitState :=
  if is_empty u then u
  else set_excluded (update_included_trials u tr_inc) (!inc)

/-- Insufficient data as the claim states it: an empty unit, or a unit
with zero trials. -/
def insufficient_data (u : UnitState) : Bool := is_empty u || decide (u.nTrials = 0)


/-- Finiteness of an SNR result: a finite value, as opposed to NaN or an
infinity. -/
def SNRVal.finite : SNRVal → Bool
  | .val _ => true
  | _ => false

/- %% Helper lemmas. -/

lemma fgt_nan_left (x : FVal) : fgt .nan x = false := by cases x <;> rfl

lemma fgt_nan_right (x : FVal) : fgt x .nan = false := by cases x <;> rfl

lemma fge_nan_left (x : FVal) : fge .nan x = false := by cases x <;> rfl

lemma fge_nan_right (x : FVal) : fge x .nan = false := by cases x <;> rfl

lemma fmul_nan_right (x : FVal) : fmul x .nan = .nan := by cases x <;> rfl

lemma fdiv_nan_left (x : FVal) : fdiv .nan x = .nan := by cases x <;> rfl

lemma fdiv_nan_right (x : FVal) : fdiv x .nan = .nan := by cases x <;> rfl

lemma fmul_hundred_nan : fmul (.num 100) .nan = .nan := rfl

/- %% Claim theorems. -/

/-- C1: `test_rejection` includes a unit iff all five criteria pass
(SNR > 1, mFR > 1, ISIvr < 1, NTrialsTotal > 20,
100*NTrialsInc/NTrialsTotal > 50), it excludes the unit iff any single
criterion fails, and a NaN in any of the five metrics makes its
criterion fail (so the unit is excluded). -/
theorem test_rejection_criteria (qm : QualityMetrics) :
    (test_rejection qm = true ↔
      (fgt qm.SNR (.num 1) = true ∧ fgt qm.mFR (.num 1) = true ∧
       flt qm.ISIvr (.num 1) = true ∧ fgt qm.NTrialsTotal (.num 20) = true ∧
       fgt (fdiv (fmul (.num 100) qm.NTrialsInc) qm.NTrialsTotal) (.num 50) = true))
    ∧ (qm.SNR = .nan → test_rejection qm = false)
    ∧ (qm.mFR = .nan → test_rejection qm = false)
    ∧ (qm.ISIvr = .nan → test_rejection qm = false)
    ∧ (qm.NTrialsTotal = .nan → test_rejection qm = false)
    ∧ (qm.NTrialsInc = .nan → test_rejection qm = false) := by
  refine ⟨?_, ?_, ?_, ?_, ?_, ?_⟩
  · simp [test_rejection, min_SNR, min_FR, max_ISIvr, min_n_trs,
      min_inc_trs_ratio, and_assoc]
  · intro h; simp [test_rejection, h, fgt_nan_left]
  · intro h; simp [test_rejection, h, fgt_nan_left]
  · intro h; simp [test_rejection, flt, h, fgt_nan_right]
  · intro h; simp [test_rejection, h, fgt_nan_left, fdiv_nan_right]
  · intro h; simp [test_rejection, h, fmul_hundred_nan, fdiv_nan_left, fgt_nan_left]

/-- Witness for C1: a unit whose SNR metric is NaN is rejected. -/
theorem test_rejection_criteria_witness :
    test_rejection ⟨.nan, .num 5, .num (1/10), .num 100, .num 90⟩ = false :=
  (test_rejection_criteria ⟨.nan, .num 5, .num (1/10), .num 100, .num 90⟩).2.1 rfl

/-- C10: `classify_unit` labels a unit 'single unit' iff
`true_spikes >= 90` and `snr >= 2.0` both evaluate true; NaN comparisons
are false, so a NaN SNR or NaN true-spike fraction always yields
'multi unit'. -/
theorem classify_unit_nan_multi (snr ts : FVal) :
    ((snr = .nan ∨ ts = .nan) → classify_unit snr ts = "multi unit")
    ∧ (classify_unit snr ts = "single unit" ↔
        (fge ts (.num 90) = true ∧ fge snr (.num 2) = true)) := by
  constructor
  · rintro (h | h) <;> simp [classify_unit, h, fge_nan_left, fge_nan_right]
  · by_cases h90 : fge ts (.num 90) = true <;>
      by_cases h2 : fge snr (.num 2) = true <;>
      simp [classify_unit, h90, h2]


/-- Witness for C10: NaN SNR yields 'multi unit' even with perfect
true-spike fraction. -/
theorem classify_unit_nan_multi_witness :
    classify_unit .nan (.num 100) = "multi unit" :=
  (classify_unit_nan_multi .nan (.num 100)).1 (Or.inl rfl)

/-- C4: `isi_stats` returns `(NaN, NaN)` on zero spikes and `(100, 0)`
on exactly one spike, in both cases totally (no exception). -/
theorem isi_stats_degenerate :
    isi_stats ([] : List ℚ) = (TSVal.nan, FVal.nan)
    ∧ ∀ t : ℚ, isi_stats [t] = (TSVal.num 100, FVal.num 0) :=
  ⟨rfl, fun _ => rfl⟩

/-- C7 counterexample: for spike times `[0,1,2,3,100,101,102,103]` ms each
burst ISI equals exactly 1 ms, so the strict comparison `isi < 1 ms`
counts 0 violations (not 2), and the returned violation percentage is not
`100*2/7`. -/
theorem isi_stats_burst_counterexample :
    ((diffs [0, 1, 2, 3, 100, 101, 102, 103]).filter
        (fun x => decide (x < ISI_TH))).length ≠ 2
    ∧ (isi_stats [0, 1, 2, 3, 100, 101, 102, 103]).2 ≠ FVal.num (200 / 7) := by
  constructor
  · norm_num [diffs, ISI_TH, List.filter]
  · norm_num [isi_stats, diffs, ISI_TH, List.filter]

/-- C7 amended: for spike times `[0,1,2,3,100,101,102,103]` ms,
`isi_stats` counts 0 of the 7 inter-spike intervals as below the strict
1 ms threshold and returns an ISI violation percentage of 0. -/
theorem isi_stats_burst :
    ((diffs [0, 1, 2, 3, 100, 101, 102, 103]).filter
        (fun x => decide (x < ISI_TH))).length = 0
    ∧ (diffs ([0, 1, 2, 3, 100, 101, 102, 103] : List ℚ)).length = 7
    ∧ (isi_stats [0, 1, 2, 3, 100, 101, 102, 103]).2 = FVal.num 0 := by
  refine ⟨?_, ?_, ?_⟩
  · norm_num [diffs, ISI_TH, List.filter]
  · norm_num [diffs]
  · norm_num [isi_stats, diffs, ISI_TH, List.filter]

/-- C6 counterexample: in the waveform set `[[0,0],[1,2]]` only one spike
(row 0) reaches the global minimum 0 — it merely reaches it at two
samples — and only one spike reaches the global maximum 2, yet
`calc_waveform_stats` sets the truncation flag. -/
theorem calc_waveform_trunc_counterexample :
    truncated_by_spikes ([[0, 0], [1, 2]] : List (List ℚ)) = false
    ∧ calc_waveform_trunc ([[0, 0], [1, 2]] : List (List ℚ)) = true := by
  constructor
  · norm_num [truncated_by_spikes, listMin, listMax, List.filter, List.contains]
  · norm_num [calc_waveform_trunc, listMin, listMax, List.filter]

/-- C6 amended: the truncation flag is set iff more than one waveform
*sample* (matrix entry, not spike) equals the global minimum voltage or
more than one sample equals the global maximum voltage. -/
theorem calc_waveform_trunc_counts_samples (wfs : List (List ℚ)) :
    calc_waveform_trunc wfs = true ↔
      1 < wfs.flatten.count (listMin wfs.flatten)
      ∨ 1 < wfs.flatten.count (listMax wfs.flatten) := by
  have hcount : ∀ (l : List ℚ) (a : ℚ),
      (l.filter (fun x => decide (x = a))).length = l.count a := by
    intro l a
    rw [List.count, List.countP_eq_length_filter]
    rfl
  unfold calc_waveform_trunc
  simp only [Bool.or_eq_true, decide_eq_true_eq, hcount]

lemma sq_sum_nonneg (xs : List ℚ) (m : ℚ) :
    0 ≤ (xs.map (fun x => (x - m) ^ 2)).sum := by
  apply List.sum_nonneg
  intro x hx
  obtain ⟨y, _, rfl⟩ := List.mem_map.mp hx
  positivity

lemma sampleVar_nonneg {xs : List ℚ} {v : ℚ} (h : sampleVar xs = some v) :
    0 ≤ v := by
  unfold sampleVar at h
  split at h
  · exact absurd h (by simp)
  · rename_i hlen
    obtain rfl := Option.some_injective _ h.symm
    have hl : 2 ≤ xs.length := not_lt.mp hlen
    apply div_nonneg (sq_sum_nonneg xs _)
    have hc : (2 : ℚ) ≤ (xs.length : ℚ) := by exact_mod_cast hl
    linarith

lemma popVar_nonneg {xs : List ℚ} {v : ℚ} (h : popVar xs = some v) :
    0 ≤ v := by
  unfold popVar at h
  split at h
  · exact absurd h (by simp)
  · obtain rfl := Option.some_injective _ h.symm
    exact div_nonneg (sq_sum_nonneg xs _) (by positivity)

lemma colMeans_length (wfs : List (List ℚ)) :
    (colMeans wfs).length = (wfs.headD []).length := by
  simp [colMeans]

lemma wfResidualFlat_length (wfs : List (List ℚ)) :
    (wfResidualFlat wfs).length = wfs.length * (wfs.headD []).length := by
  unfold wfResidualFlat
  rw [List.length_flatten, List.map_map]
  have h : (List.length ∘ fun row : List ℚ =>
      (List.range (wfs.headD []).length).map
        (fun j => row.getD j 0 - (colMeans wfs).getD j 0))
      = fun _ => (wfs.headD []).length := by
    funext row
    simp [Function.comp]
  rw [h, List.map_const', List.sum_replicate, smul_eq_mul]

/-- C3: for at least two spikes, the true-spike percentage of `isi_stats`
is `100*(1/2 + sqrt det)` with
`det = 1/4 - r*T/(2*(t_max - t_min)*N^2)`, `t_max = 1` ms,
`t_min = 0.675` ms, `r` the number of sub-millisecond ISIs, `T` the
spike-time span and `N` the spike count; it is NaN when `det < 0`. -/
theorem isi_stats_true_spikes_formula (spk : List ℚ) (h : 2 ≤ spk.length) :
    (0 ≤ isi_det_spec spk →
      ((isi_stats spk).1).toReal
        = some (100 * (1 / 2 + Real.sqrt ((isi_det_spec spk : ℚ) : ℝ))))
    ∧ (isi_det_spec spk < 0 → ((isi_stats spk).1).toReal = none) := by
  match spk with
  | [] => simp at h
  | [_] => simp at h
  | a :: b :: rest =>
    have h1 : (isi_stats (a :: b :: rest)).1
        = if 0 ≤ isi_det_spec (a :: b :: rest)
          then TSVal.sqrtForm (isi_det_spec (a :: b :: rest)) else TSVal.nan := rfl
    constructor
    · intro hd
      rw [h1, if_pos hd]
      rfl
    · intro hd
      rw [h1, if_neg (not_le.mpr hd)]
      rfl

/-- Witness for C3: three regularly spaced spikes give `det = 1/4 ≥ 0`
and a defined true-spike percentage. -/
theorem isi_stats_true_spikes_formula_witness :
    0 ≤ isi_det_spec [0, 2, 4]
    ∧ ((isi_stats [0, 2, 4]).1).toReal
        = some (100 * (1 / 2 + Real.sqrt ((isi_det_spec [0, 2, 4] : ℚ) : ℝ))) :=
  ⟨by norm_num [isi_det_spec, diffs, listMax, listMin, List.filter],
   (isi_stats_true_spikes_formula [0, 2, 4] (by norm_num)).1
     (by norm_num [isi_det_spec, diffs, listMax, listMin, List.filter])⟩

/-- C5 counterexample: two identical non-constant waveforms give a mean
waveform with positive std but a residual with zero std, so `calc_snr`
returns +inf (float division by zero), which is not a finite value. -/
theorem calc_snr_infinite_counterexample :
    calc_snr ([[0, 1], [0, 1]] : List (List ℚ)) = SNRVal.inf
    ∧ (calc_snr ([[0, 1], [0, 1]] : List (List ℚ))).finite = false := by
  have h1 : sampleVar (colMeans [[0, 1], [0, 1]]) = some (1 / 2) := by
    norm_num [sampleVar, colMeans, listMean, List.range_succ]
  have h0 : popVar (wfResidualFlat [[0, 1], [0, 1]]) = some 0 := by
    norm_num [popVar, wfResidualFlat, colMeans, listMean, List.range_succ]
  have he : calc_snr ([[0, 1], [0, 1]] : List (List ℚ)) = SNRVal.inf := by
    rw [calc_snr, h1, h0]
    norm_num
  exact ⟨he, by rw [he]; rfl⟩

/-- C5 amended: `calc_snr` is NaN for fewer than 2 waveform rows, and also
NaN for fewer than 2 sample columns (the ddof=1 std of the mean waveform
is then NaN even when the residual std is nonzero).  With at least 2 rows
and 2 columns both variances exist; if the residual variance is nonzero
the result is the std of the mean waveform divided by the std of the
residual, finite and ≥ 0; if the residual variance is zero the result is
+inf when the mean-waveform variance is nonzero and NaN when it is zero —
in neither case a finite value. -/
theorem calc_snr_bounds (wfs : List (List ℚ)) :
    (wfs.length < 2 → calc_snr wfs = SNRVal.nan)
    ∧ ((wfs.headD []).length < 2 → calc_snr wfs = SNRVal.nan)
    ∧ (2 ≤ wfs.length → 2 ≤ (wfs.headD []).length →
        sampleVar (colMeans wfs) ≠ none ∧ popVar (wfResidualFlat wfs) ≠ none)
    ∧ (∀ v1 v0 : ℚ, 2 ≤ wfs.length →
        sampleVar (colMeans wfs) = some v1 →
        popVar (wfResidualFlat wfs) = some v0 → v0 ≠ 0 →
        calc_snr wfs = SNRVal.val (v1 / v0)
        ∧ 0 ≤ v1 / v0
        ∧ (calc_snr wfs).toRVal
            = RVal.fin (Real.sqrt ((v1 : ℝ)) / Real.sqrt ((v0 : ℝ)))
        ∧ 0 ≤ Real.sqrt ((v1 : ℝ)) / Real.sqrt ((v0 : ℝ))
        ∧ (calc_snr wfs).finite = true)
    ∧ (∀ v1 : ℚ, 2 ≤ wfs.length →
        sampleVar (colMeans wfs) = some v1 →
        popVar (wfResidualFlat wfs) = some 0 → v1 ≠ 0 →
        calc_snr wfs = SNRVal.inf)
    ∧ (∀ v1 : ℚ, 2 ≤ wfs.length →
        sampleVar (colMeans wfs) = some v1 →
        popVar (wfResidualFlat wfs) = some 0 → v1 = 0 →
        calc_snr wfs = SNRVal.nan) := by
  refine ⟨?_, ?_, ?_, ?_, ?_, ?_⟩
  · intro hlt
    rw [calc_snr, if_pos hlt]
  · intro hcols
    by_cases hrows : wfs.length < 2
    · rw [calc_snr, if_pos hrows]
    · have hnone : sampleVar (colMeans wfs) = none := by
        unfold sampleVar
        rw [if_pos (by rw [colMeans_length]; exact hcols)]
      rcases hpop : popVar (wfResidualFlat wfs) with _ | v0
      · rw [calc_snr, if_neg hrows, hnone, hpop]
      · rw [calc_snr, if_neg hrows, hnone, hpop]
  · intro hrows hcols
    constructor
    · unfold sampleVar
      rw [if_neg (not_lt.mpr (by rw [colMeans_length]; exact hcols))]
      simp
    · unfold popVar
      rw [if_neg (by
        rw [wfResidualFlat_length]
        exact Nat.mul_ne_zero (by omega) (by omega))]
      simp
  · intro v1 v0 h2 hv1 hv0 hne
    have hcalc : calc_snr wfs = SNRVal.val (v1 / v0) := by
      rw [calc_snr, if_neg (not_lt.mpr h2), hv1, hv0]
      simp [hne]
    have hv1n : 0 ≤ v1 := sampleVar_nonneg hv1
    have hv0n : 0 ≤ v0 := popVar_nonneg hv0
    refine ⟨hcalc, div_nonneg hv1n hv0n, ?_,
      div_nonneg (Real.sqrt_nonneg _) (Real.sqrt_nonneg _), by rw [hcalc]; rfl⟩
    rw [hcalc]
    show RVal.fin (Real.sqrt ((v1 / v0 : ℚ) : ℝ)) = _
    rw [Rat.cast_div, Real.sqrt_div (by exact_mod_cast hv1n)]
  · intro v1 h2 hv1 hv0 hne
    rw [calc_snr, if_neg (not_lt.mpr h2), hv1, hv0]
    simp [hne]
  · intro v1 h2 hv1 hv0 hz
    rw [calc_snr, if_neg (not_lt.mpr h2), hv1, hv0]
    simp [hz]

/-- Witness for C5: waveform set `[[0,0],[0,2]]` has mean-waveform
variance 1/2 and residual variance 1/2, giving a finite SNR of 1. -/
theorem calc_snr_bounds_witness :
    calc_snr ([[0, 0], [0, 2]] : List (List ℚ)) = SNRVal.val ((1 / 2) / (1 / 2)) :=
  ((calc_snr_bounds ([[0, 0], [0, 2]] : List (List ℚ))).2.2.2.1 (1 / 2) (1 / 2)
    (by norm_num)
    (by norm_num [sampleVar, colMeans, listMean, List.range_succ])
    (by norm_num [popVar, wfResidualFlat, colMeans, listMean, List.range_succ])
    (by norm_num)).1

/-- C8 counterexample: a non-empty unit with zero trials counts as
'insufficient data' under the claim, yet `test_qm` does not short-circuit
on it: the call writes the trial-count quality metrics (and the excluded
flag), so the unit does not stay unchanged. -/
theorem test_qm_zero_trials_counterexample :
    insufficient_data ⟨false, 0, none, none, none, false⟩ = true
    ∧ test_qm_state ⟨false, 0, none, none, none, false⟩ [] true
        ≠ (⟨false, 0, none, none, none, false⟩ : UnitState)
    ∧ (test_qm_state ⟨false, 0, none, none, none, false⟩ [] true).qmNTrialsTotal
        = some 0 := by
  decide

/-- C8 amended: only the unit's `empty` flag short-circuits `test_qm`: an
empty unit is returned untouched (no metrics, no trial-inclusion or
excluded-flag change), while every non-empty unit — even one with zero
trials — gets its trial-inclusion state, trial-count metrics and excluded
flag written. -/
theorem test_qm_empty_guard (u : UnitState) (tr_inc : List Bool) (inc : Bool) :
    (is_empty u = true → test_qm_state u tr_inc inc = u)
    ∧ (is_empty u = false →
        (test_qm_state u tr_inc inc).trialsIncluded = some tr_inc
        ∧ (test_qm_state u tr_inc inc).qmNTrialsTotal = some u.nTrials
        ∧ (test_qm_state u tr_inc inc).qmNTrialsInc = some (tr_inc.countP id)
        ∧ (test_qm_state u tr_inc inc).excluded = !inc) := by
  constructor
  · intro h
    simp [test_qm_state, h]
  · intro h
    simp [test_qm_state, h, update_included_trials, set_excluded]

/-- Witness for C8: an empty unit passes through `test_qm` unchanged. -/
theorem test_qm_empty_guard_witness :
    test_qm_state ⟨true, 3, none, none, none, false⟩ [true] false
      = (⟨true, 3, none, none, none, false⟩ : UnitState) :=
  (test_qm_empty_guard ⟨true, 3, none, none, none, false⟩ [true] false).1 rfl

lemma okCountFrom_le_length : ∀ (w : List ℚ) (vmin vmax : ℚ),
    okCountFrom vmin vmax w ≤ w.length
  | [], _, _ => Nat.le_refl 0
  | x :: rest, vmin, vmax => by
    simp only [okCountFrom]
    split
    · exact Nat.zero_le _
    · have h := okCountFrom_le_length rest (min vmin x) (max vmax x)
      simp only [List.length_cons]
      omega

lemma okCountFrom_ok : ∀ (w : List ℚ) (vmin vmax : ℚ) (k : ℕ),
    k < okCountFrom vmin vmax w →
    (w.take (k + 1)).foldl max vmax ≤ MAX_DRIFT_PCT / 100 * w.getD k 0
    ∧ w.getD k 0 ≤ MAX_DRIFT_PCT / 100 * (w.take (k + 1)).foldl min vmin
  | [], _, _, k => by simp [okCountFrom]
  | x :: rest, vmin, vmax, k => by
    simp only [okCountFrom]
    split
    · intro h
      exact absurd h (Nat.not_lt_zero k)
    · rename_i hgood
      intro hk
      push_neg at hgood
      obtain ⟨hg1, hg2⟩ := hgood
      match k with
      | 0 => exact ⟨by simpa using hg1, by simpa using hg2⟩
      | k + 1 =>
        have ih := okCountFrom_ok rest (min vmin x) (max vmax x) k (by omega)
        simpa using ih

lemma okCountFrom_stop : ∀ (w : List ℚ) (vmin vmax : ℚ),
    okCountFrom vmin vmax w < w.length →
    ¬((w.take (okCountFrom vmin vmax w + 1)).foldl max vmax
        ≤ MAX_DRIFT_PCT / 100 * w.getD (okCountFrom vmin vmax w) 0
      ∧ w.getD (okCountFrom vmin vmax w) 0
        ≤ MAX_DRIFT_PCT / 100 * (w.take (okCountFrom vmin vmax w + 1)).foldl min vmin)
  | [], _, _ => by simp [okCountFrom]
  | x :: rest, vmin, vmax => by
    simp only [okCountFrom]
    split
    · rename_i hbad
      intro _
      simp only [List.take_succ_cons, List.take_zero, List.foldl_cons, List.foldl_nil,
        List.getD_cons_zero]
      rw [not_and_or]
      rcases hbad with h | h
      · exact Or.inl (not_le.mpr h)
      · exact Or.inr (not_le.mpr h)
    · intro hlen
      have ih := okCountFrom_stop rest (min vmin x) (max vmax x)
        (by simp only [List.length_cons] at hlen; omega)
      rw [Nat.add_comm 1 (okCountFrom (min vmin x) (max vmax x) rest)]
      simpa using ih

lemma okCountFrom_pos (x : ℚ) (rest : List ℚ) (hx : 0 ≤ x) :
    1 ≤ okCountFrom x x (x :: rest) := by
  simp only [okCountFrom]
  rw [if_neg]
  · omega
  · push_neg
    constructor
    · rw [max_self]
      norm_num [MAX_DRIFT_PCT]
      linarith
    · rw [min_self]
      norm_num [MAX_DRIFT_PCT]
      linarith

lemma firstMaxIdx_lt_length : ∀ (xs : List ℤ), xs ≠ [] →
    firstMaxIdx xs < xs.length
  | [], h => absurd rfl h
  | [_], _ => by simp [firstMaxIdx]
  | x :: y :: t, _ => by
    have ih := firstMaxIdx_lt_length (y :: t) (by simp)
    simp only [firstMaxIdx]
    split
    · simp only [List.length_cons] at ih ⊢
      omega
    · simp

lemma firstMaxIdx_ge : ∀ (xs : List ℤ) (k : ℕ), k < xs.length →
    xs.getD k 0 ≤ xs.getD (firstMaxIdx xs) 0
  | [], k, hk => absurd hk (by simp)
  | [x], k, hk => by
    match k, hk with
    | 0, _ => exact le_refl _
  | x :: y :: t, k, hk => by
    simp only [firstMaxIdx]
    split
    · rename_i hlt
      match k with
      | 0 =>
        simp only [List.getD_cons_zero, List.getD_cons_succ]
        exact le_of_lt hlt
      | k + 1 =>
        simp only [List.getD_cons_succ]
        exact firstMaxIdx_ge (y :: t) k (by simpa using hk)
    · rename_i hnlt
      rw [not_lt] at hnlt
      match k with
      | 0 => exact le_refl _
      | k + 1 =>
        simp only [List.getD_cons_zero, List.getD_cons_succ]
        exact le_trans (firstMaxIdx_ge (y :: t) k (by simpa using hk)) hnlt

lemma firstMaxIdx_first : ∀ (xs : List ℤ) (k : ℕ), k < firstMaxIdx xs →
    xs.getD k 0 < xs.getD (firstMaxIdx xs) 0
  | [], k, hk => absurd hk (by simp [firstMaxIdx])
  | [_], k, hk => absurd hk (by simp [firstMaxIdx])
  | x :: y :: t, k, hk => by
    rw [firstMaxIdx] at hk ⊢
    split at hk
    · rename_i hlt
      match k with
      | 0 =>
        simp only [List.getD_cons_zero]
        split
        · simpa using hlt
        · omega
      | k + 1 =>
        have ih := firstMaxIdx_first (y :: t) k (by omega)
        simp only [List.getD_cons_succ]
        split
        · exact ih
        · omega
    · omega

lemma getD_eq_of_lt {α : Type} (l : List α) (d : α) (k : ℕ) (h : k < l.length) :
    l.getD k d = l[k] := by
  simp [List.getD_eq_getElem?_getD, List.getElem?_eq_getElem h]

lemma getD_range_map {α : Type} (f : ℕ → α) (n k : ℕ) (d : α) (hk : k < n) :
    ((List.range n).map f).getD k d = f k := by
  have hlen : k < ((List.range n).map f).length := by simpa using hk
  rw [getD_eq_of_lt _ _ _ hlen, List.getElem_map, List.getElem_range]

lemma getD_map_eq {α β : Type} (f : α → β) (l : List α) (k : ℕ) (d : β) (dd : α)
    (hk : k < l.length) :
    (l.map f).getD k d = f (l.getD k dd) := by
  have hlen : k < (l.map f).length := by simpa using hk
  rw [getD_eq_of_lt _ _ _ hlen, List.getElem_map, getD_eq_of_lt _ _ _ hk]

lemma pyGet_ofNat {α : Type} (xs : List α) (n : ℕ) (d : α) :
    pyGet xs (n : ℤ) d = xs.getD n d := by
  unfold pyGet
  rw [if_pos (Int.ofNat_nonneg n)]
  simp

lemma winLen_pos (v : List ℚ) (hnn : ∀ x ∈ v, 0 ≤ x) (i : ℕ) (hi : i < v.length) :
    1 ≤ winLen v i := by
  unfold winLen
  rw [List.drop_eq_getElem_cons hi, getD_eq_of_lt v 0 i hi]
  exact okCountFrom_pos _ _ (hnn _ (List.getElem_mem hi))

lemma winLen_le (v : List ℚ) (i : ℕ) : winLen v i ≤ v.length - i := by
  have h := okCountFrom_le_length (v.drop i) (v.getD i 0) (v.getD i 0)
  simpa [winLen] using h

lemma prd_end_i_eq (v : List ℚ) (hnn : ∀ x ∈ v, 0 ≤ x) (i : ℕ)
    (hi : i < v.length) :
    prd_end_i v i = ((i + (winLen v i - 1) : ℕ) : ℤ) := by
  have h1 := winLen_pos v hnn i hi
  unfold prd_end_i
  omega

lemma n_tr_length (v : List ℚ) (tbins : List (ℚ × ℚ)) (trs : List ℚ) :
    (n_tr v tbins trs).length = v.length := by
  simp [n_tr]

lemma countLt_mono (trs : List ℚ) {t1 t2 : ℚ} (h : t1 ≤ t2) :
    countLt trs t1 ≤ countLt trs t2 := by
  apply List.countP_mono_left
  intro x _ hx
  simp only [decide_eq_true_eq] at hx ⊢
  linarith

lemma binsOrdered_le : ∀ (bs : List (ℚ × ℚ)), binsOrdered bs = true →
    ∀ i j : ℕ, i ≤ j → j < bs.length →
    (bs.getD i (0, 0)).1 ≤ (bs.getD j (0, 0)).2
  | [], _, _, j, _, hj => absurd hj (by simp)
  | [b], hb, i, j, hij, hj => by
    have hj0 : j = 0 := by simpa using Nat.lt_one_iff.mp (by simpa using hj)
    have hi0 : i = 0 := by omega
    subst hj0; subst hi0
    simpa [binsOrdered] using hb
  | a :: b :: t, h, i, j, hij, hj => by
    simp only [binsOrdered, Bool.and_eq_true, decide_eq_true_eq] at h
    obtain ⟨⟨ha1, ha2⟩, hrest⟩ := h
    match i, j with
    | 0, 0 => simpa using ha1
    | 0, j + 1 =>
      have ih := binsOrdered_le (b :: t) hrest 0 j (Nat.zero_le _)
        (by simpa using hj)
      simp only [List.getD_cons_zero, List.getD_cons_succ]
      calc a.1 ≤ a.2 := ha1
        _ = b.1 := ha2
        _ = ((b :: t).getD 0 (0, 0)).1 := rfl
        _ ≤ _ := ih
    | i + 1, j + 1 =>
      have ih := binsOrdered_le (b :: t) hrest i j (by omega)
        (by simpa using hj)
      simpa using ih

lemma n_tr_getD (v : List ℚ) (tbins : List (ℚ × ℚ)) (trs : List ℚ)
    (hlen : v.length = tbins.length) (hnn : ∀ x ∈ v, 0 ≤ x)
    (i : ℕ) (hi : i < v.length) :
    (n_tr v tbins trs).getD i 0 = trialsCovered v tbins trs i := by
  unfold n_tr trialsCovered
  rw [getD_range_map _ _ _ _ hi]
  have h1 := winLen_pos v hnn i hi
  have h2 := winLen_le v i
  have helt : i + (winLen v i - 1) < tbins.length := by omega
  rw [prd_end_i_eq v hnn i hi, pyGet_ofNat,
    getD_map_eq Int.ofNat _ _ 0 0 (by simpa [n_tr_prd_end] using helt)]
  unfold n_tr_prd_end n_tr_prd_start
  rw [getD_map_eq _ _ _ 0 (0, 0) helt, getD_map_eq _ _ _ 0 (0, 0) (hlen ▸ hi)]
  rfl

lemma drift_idx_lt (v : List ℚ) (tbins : List (ℚ × ℚ)) (trs : List ℚ)
    (hne : v ≠ []) : drift_idx v tbins trs < v.length := by
  have hlen0 : n_tr v tbins trs ≠ [] := by
    intro hcon
    apply hne
    have hl := congrArg List.length hcon
    rw [n_tr_length] at hl
    exact List.length_eq_zero.mp hl
  have h := firstMaxIdx_lt_length (n_tr v tbins trs) hlen0
  rw [n_tr_length] at h
  exact h

/-- C9: for non-negative per-bin rates over well-formed (ordered,
contiguous) session time bins, the trial-index range of the window
selected by the drift search satisfies
`tr_start_i <= tr_end_i`: the count of trial starts before the selected
window's start boundary never exceeds the count before its end
boundary. -/
theorem drift_trial_range_mono (v : List ℚ) (tbins : List (ℚ × ℚ))
    (tr_starts : List ℚ)
    (hne : v ≠ []) (hlen : v.length = tbins.length)
    (hnn : ∀ x ∈ v, 0 ≤ x) (hord : binsOrdered tbins = true) :
    (drift_first_tr v tbins tr_starts : ℤ) ≤ drift_last_tr v tbins tr_starts := by
  have hidxlt : drift_idx v tbins tr_starts < v.length := drift_idx_lt v tbins tr_starts hne
  have h1 := winLen_pos v hnn _ hidxlt
  have h2 := winLen_le v (drift_idx v tbins tr_starts)
  have helt : drift_idx v tbins tr_starts
      + (winLen v (drift_idx v tbins tr_starts) - 1) < tbins.length := by omega
  unfold drift_first_tr drift_last_tr
  rw [prd_end_i_eq v hnn _ hidxlt, pyGet_ofNat,
    getD_map_eq Int.ofNat _ _ 0 0 (by simpa [n_tr_prd_end] using helt)]
  unfold n_tr_prd_start n_tr_prd_end
  rw [getD_map_eq _ _ _ 0 (0, 0) (hlen ▸ hidxlt), getD_map_eq _ _ _ 0 (0, 0) helt]
  have hb := binsOrdered_le tbins hord (drift_idx v tbins tr_starts)
    (drift_idx v tbins tr_starts + (winLen v (drift_idx v tbins tr_starts) - 1))
    (by omega) helt
  have hc := countLt_mono tr_starts hb
  simp only [Int.ofNat_eq_coe]
  omega

/-- Witness for C9: a two-bin constant-rate session with one trial. -/
theorem drift_trial_range_mono_witness :
    (drift_first_tr [1, 1] [(0, 1), (1, 2)] [1 / 2] : ℤ)
      ≤ drift_last_tr [1, 1] [(0, 1), (1, 2)] [1 / 2] :=
  drift_trial_range_mono [1, 1] [(0, 1), (1, 2)] [1 / 2]
    (by simp) (by simp) (by norm_num)
    (by norm_num [binsOrdered])

/-- C2: the drift search extends, for each candidate start bin `i`, a
running (min, max) rate envelope over successive bins, stopping the first
time the running max exceeds 2.0 times the current bin's rate or the
current bin's rate exceeds 2.0 times the running min; among the candidate
starts it selects the one covering the most trials (trial starts counted
against the window's bin boundaries), taking the first index among equal
maxima; and it returns that window's absolute time bounds, included-bin
mask, included-trial mask and included-spike mask. -/
theorem test_drift_spec (v : List ℚ) (tbins : List (ℚ × ℚ))
    (tr_starts spk_times : List ℚ)
    (hne : v ≠ []) (hlen : v.length = tbins.length) (hnn : ∀ x ∈ v, 0 ≤ x) :
    (∀ i, i < v.length →
      1 ≤ winLen v i
      ∧ (∀ k, k < winLen v i → stepOK (v.drop i) k)
      ∧ (winLen v i < v.length - i → ¬stepOK (v.drop i) (winLen v i)))
    ∧ drift_idx v tbins tr_starts < v.length
    ∧ (∀ k, k < v.length →
        trialsCovered v tbins tr_starts k
          ≤ trialsCovered v tbins tr_starts (drift_idx v tbins tr_starts))
    ∧ (∀ k, k < drift_idx v tbins tr_starts →
        trialsCovered v tbins tr_starts k
          < trialsCovered v tbins tr_starts (drift_idx v tbins tr_starts))
    ∧ (test_drift v tbins tr_starts spk_times).t1_inc
        = (tbins.getD (drift_idx v tbins tr_starts) (0, 0)).1
    ∧ (test_drift v tbins tr_starts spk_times).t2_inc
        = (tbins.getD (drift_idx v tbins tr_starts
            + (winLen v (drift_idx v tbins tr_starts) - 1)) (0, 0)).2
    ∧ (test_drift v tbins tr_starts spk_times).spk_inc
        = spk_times.map (fun s => decide
            ((tbins.getD (drift_idx v tbins tr_starts) (0, 0)).1 ≤ s
              ∧ s < (tbins.getD (drift_idx v tbins tr_starts
                  + (winLen v (drift_idx v tbins tr_starts) - 1)) (0, 0)).2))
    ∧ (test_drift v tbins tr_starts spk_times).tr_inc
        = (List.range tr_starts.length).map (fun (k : ℕ) => decide
            ((countLt tr_starts
                (tbins.getD (drift_idx v tbins tr_starts) (0, 0)).1 : ℤ) ≤ (k : ℤ)
              ∧ (k : ℤ) < (countLt tr_starts
                (tbins.getD (drift_idx v tbins tr_starts
                  + (winLen v (drift_idx v tbins tr_starts) - 1)) (0, 0)).2 : ℤ)))
    ∧ (test_drift v tbins tr_starts spk_times).prd_inc
        = (List.range tbins.length).map (fun (k : ℕ) => decide
            ((drift_idx v tbins tr_starts : ℚ) ≤ (k : ℚ)
              ∧ (k : ℚ) < ((drift_idx v tbins tr_starts
                  + (winLen v (drift_idx v tbins tr_starts) - 1) : ℕ) : ℚ))) := by
  have hidxlt : drift_idx v tbins tr_starts < v.length :=
    drift_idx_lt v tbins tr_starts hne
  have h1 := winLen_pos v hnn _ hidxlt
  have h2 := winLen_le v (drift_idx v tbins tr_starts)
  have helt : drift_idx v tbins tr_starts
      + (winLen v (drift_idx v tbins tr_starts) - 1) < tbins.length := by omega
  have hpe := prd_end_i_eq v hnn _ hidxlt
  have hc : MAX_DRIFT_PCT / 100 = (2 : ℚ) := by norm_num [MAX_DRIFT_PCT]
  have hft : drift_first_tr v tbins tr_starts
      = countLt tr_starts (tbins.getD (drift_idx v tbins tr_starts) (0, 0)).1 := by
    unfold drift_first_tr n_tr_prd_start
    rw [getD_map_eq _ _ _ 0 (0, 0) (hlen ▸ hidxlt)]
  have hlt : drift_last_tr v tbins tr_starts
      = (countLt tr_starts (tbins.getD (drift_idx v tbins tr_starts
          + (winLen v (drift_idx v tbins tr_starts) - 1)) (0, 0)).2 : ℤ) := by
    unfold drift_last_tr
    rw [hpe, pyGet_ofNat,
      getD_map_eq Int.ofNat _ _ 0 0 (by simpa [n_tr_prd_end] using helt)]
    unfold n_tr_prd_end
    rw [getD_map_eq _ _ _ 0 (0, 0) helt]
    simp
  refine ⟨?_, hidxlt, ?_, ?_, ?_, ?_, ?_, ?_, ?_⟩
  · intro i hi
    have hhead : (v.drop i).headD 0 = v.getD i 0 := by
      rw [List.drop_eq_getElem_cons hi, getD_eq_of_lt v 0 i hi]
      rfl
    refine ⟨winLen_pos v hnn i hi, ?_, ?_⟩
    · intro k hk
      have hok := okCountFrom_ok (v.drop i) (v.getD i 0) (v.getD i 0) k
        (by simpa [winLen] using hk)
      rw [hc] at hok
      unfold stepOK envMax envMin
      rw [hhead]
      exact hok
    · intro hlt2
      have hstop := okCountFrom_stop (v.drop i) (v.getD i 0) (v.getD i 0)
        (by simpa [winLen] using hlt2)
      rw [hc] at hstop
      unfold stepOK envMax envMin
      rw [hhead]
      simpa [winLen] using hstop
  · intro k hk
    have hfold : firstMaxIdx (n_tr v tbins tr_starts) = drift_idx v tbins tr_starts := rfl
    have h := firstMaxIdx_ge (n_tr v tbins tr_starts) k
      (by rw [n_tr_length]; exact hk)
    rw [hfold, n_tr_getD v tbins tr_starts hlen hnn k hk,
      n_tr_getD v tbins tr_starts hlen hnn _ hidxlt] at h
    exact h
  · intro k hk
    have hfold : firstMaxIdx (n_tr v tbins tr_starts) = drift_idx v tbins tr_starts := rfl
    have hk2 : k < v.length := by omega
    have h := firstMaxIdx_first (n_tr v tbins tr_starts) k
      (by rw [hfold]; exact hk)
    rw [hfold, n_tr_getD v tbins tr_starts hlen hnn k hk2,
      n_tr_getD v tbins tr_starts hlen hnn _ hidxlt] at h
    exact h
  · show (pyGet tbins ((drift_idx v tbins tr_starts : ℕ) : ℤ) (0, 0)).1 = _
    rw [pyGet_ofNat]
  · show (pyGet tbins (prd_end_i v (drift_idx v tbins tr_starts)) (0, 0)).2 = _
    rw [hpe, pyGet_ofNat]
  · show spk_times.map _ = _
    simp only [indices_in_window, hpe, pyGet_ofNat]
  · have hdef : (test_drift v tbins tr_starts spk_times).tr_inc
        = (List.range tr_starts.length).map (fun (k : ℕ) => decide
            ((drift_first_tr v tbins tr_starts : ℤ) ≤ (k : ℤ)
              ∧ (k : ℤ) < drift_last_tr v tbins tr_starts)) := rfl
    rw [hdef]
    simp only [hft, hlt]
  · have hdef : (test_drift v tbins tr_starts spk_times).prd_inc
        = (List.range tbins.length).map (fun (k : ℕ) => indices_in_window (k : ℚ)
            (((drift_idx v tbins tr_starts : ℕ) : ℤ) : ℚ)
            ((prd_end_i v (drift_idx v tbins tr_starts) : ℤ) : ℚ)) := rfl
    rw [hdef]
    simp only [indices_in_window, hpe, Int.cast_natCast]

/-- Witness for C2: a one-bin session with one trial; the drift search
selects bin 0. -/
theorem test_drift_spec_witness :
    drift_idx [1] [(0, 1)] [1 / 2] < ([1] : List ℚ).length :=
  (test_drift_spec [1] [(0, 1)] [1 / 2] [1 / 2]
    (by simp) (by simp) (by norm_num)).2.1
